import Mathlib

/-!
Verification of the medical-case submission pipeline in `src/server.js`
(Guided Excellence case-submission backend).

Shallow embedding conventions:
* A field map (`req.body` after `sanitizeInput`) is an association list from
  field keys to string values; `List.lookup` models JavaScript property
  access (returning `none` for an absent key).
* JavaScript truthiness of a trimmed string value (`!formData[field]`) is
  `fieldTruthy`: present and non-empty.
* `new Date(s)` together with the day-zeroed `today` of the handler is
  modelled by an injected clock: `parseDate : String → Option Int` returns
  the calendar day of the parsed date (`none` for an invalid date, whose
  every JavaScript comparison is false), and `today : Int` is the current
  calendar day (`today.setHours(0,0,0,0)` zeroes the time of day, so the
  source comparisons are at calendar-day granularity).
* The PDF renderer's `page.drawText` calls are reified as a list of
  `PdfText` events (text, position, size, font); `pdfDoc.save()` and the
  decorative `drawLine` separator are opaque.
* The email renderer is modelled as the markup string it returns, with the
  template literals' inter-tag whitespace elided.
-/

namespace GuidedBackend

/-- One uploaded file as delivered by multer: original name, declared MIME
type; the byte content is opaque and irrelevant to validation. -/
structure UploadedFile where
  originalname : String
  mimetype : String
  deriving Repr, DecidableEq

/-- The submitted field map: keys to string values, property access by
first match. -/
abbrev FieldMap : Type := List (String × String)

/-- Validation failure taxonomy of the `/SubmitCase` handler's early
returns. -/
inductive ValidationFailure where
  | missingFields (labels : List String)
  | invalidDate (field : String)
  | missingAttachment
  | invalidFileType (names : List String)
  deriving Repr, DecidableEq

/-- JavaScript `String.prototype.trim`, modelled structurally over the
character list (drop leading and trailing whitespace) so that it evaluates
by kernel reduction. -/
def jsTrim (s : String) : String :=
  String.mk ((((s.data.dropWhile Char.isWhitespace).reverse).dropWhile
    Char.isWhitespace).reverse)

/-- `sanitizeInput` from `server.js`: trim every string value of the map. -/
def sanitizeInput (m : FieldMap) : FieldMap :=
  m.map (fun p => (p.1, jsTrim p.2))

/-- Insert a space before every upper-case (ASCII) letter, the effect of
`field.replace(/([A-Z])/g, ' $1')`. -/
def insertSpaceBeforeUpper (l : List Char) : List Char :=
  l.foldr (fun c acc => if c.isUpper then ' ' :: c :: acc else c :: acc) []

/-- `result.charAt(0).toUpperCase() + result.slice(1)`. -/
def capitalizeFirst (s : String) : String :=
  match s.data with
  | [] => ""
  | c :: cs => String.mk (c.toUpper :: cs)

/-- `formatFieldName` from `server.js`. -/
def formatFieldName (field : String) : String :=
  capitalizeFirst (String.mk (insertSpaceBeforeUpper field.data))

/-- JavaScript property access `formData[field]`. -/
def lookupField (m : FieldMap) (k : String) : Option String :=
  m.lookup k

/-- The string value of a field, defaulting to the empty string; only used
under a `fieldTruthy` guard, mirroring the guarded uses in the source. -/
def getField (m : FieldMap) (k : String) : String :=
  (lookupField m k).getD ""

/-- Truthiness of `formData[field]` for string-valued maps: the key is
present with a non-empty value (the only falsy string is `""`). -/
def fieldTruthy (m : FieldMap) (k : String) : Bool :=
  match lookupField m k with
  | some v => v ≠ ""
  | none => false

/-- `requiredFields` from the `/SubmitCase` handler. -/
def requiredFields : List String :=
  ["patientName", "birthDate", "surgeryDate",
   "expeditedRequest", "surgicalGuideType", "numberOfImplants",
   "implantSystem", "implantPositions", "implantDimensions", "tissueFlapType",
   "doctorName", "doctorLicense", "doctorPhone", "doctorAddress", "doctorCity",
   "doctorState", "doctorZip",
   "submitterName"]

/-- `requiredFields.filter(field => !formData[field])`. -/
def missingOf (m : FieldMap) : List String :=
  requiredFields.filter (fun field => !(fieldTruthy m field))

/-- The presence check: on `missingFields.length > 0` return the failure
carrying `missingFields.map(formatFieldName)`. -/
def checkMissing (m : FieldMap) : Option ValidationFailure :=
  let missingFields := missingOf m
  if missingFields.length > 0 then
    some (.missingFields (missingFields.map formatFieldName))
  else
    none

/-- The birth-date check: when `formData.birthDate` is truthy, parse it and
fail when `birthDate >= today`; an invalid date (`none`) compares false. -/
def checkBirthDate (parseDate : String → Option Int) (today : Int)
    (m : FieldMap) : Option ValidationFailure :=
  if fieldTruthy m "birthDate" then
    match parseDate (getField m "birthDate") with
    | some d => if today ≤ d then some (.invalidDate "birthDate") else none
    | none => none
  else
    none

/-- The surgery-date check: when `formData.surgeryDate` is truthy, parse it
and fail when `surgeryDate <= today`; an invalid date compares false. -/
def checkSurgeryDate (parseDate : String → Option Int) (today : Int)
    (m : FieldMap) : Option ValidationFailure :=
  if fieldTruthy m "surgeryDate" then
    match parseDate (getField m "surgeryDate") with
    | some d => if d ≤ today then some (.invalidDate "surgeryDate") else none
    | none => none
  else
    none

/-- `files.length === 0 && !formData.fileLink`. -/
def checkAttachmentPresence (m : FieldMap) (files : List UploadedFile) :
    Option ValidationFailure :=
  if files.length = 0 && !(fieldTruthy m "fileLink") then
    some .missingAttachment
  else
    none

/-- `allowedTypes` from the `/SubmitCase` handler. -/
def allowedTypes : List String :=
  ["application/octet-stream",
   "application/dicom",
   "application/pdf",
   "image/jpeg",
   "image/png"]

/-- `files.filter(file => !allowedTypes.includes(file.mimetype))`. -/
def invalidFilesOf (files : List UploadedFile) : List UploadedFile :=
  files.filter (fun file => !(allowedTypes.contains file.mimetype))

/-- The attachment-type check: fail naming every offending file's original
name when some declared MIME type is outside the allow-list. -/
def checkFileTypes (files : List UploadedFile) : Option ValidationFailure :=
  let invalidFiles := invalidFilesOf files
  if invalidFiles.length > 0 then
    some (.invalidFileType (invalidFiles.map (·.originalname)))
  else
    none

/-- The validation pipeline of the `/SubmitCase` handler, in source order;
each early `return res.status(400)` is a `some` failure that short-circuits
the rest, and `none` means validation succeeded. -/
def validate (parseDate : String → Option Int) (today : Int)
    (formData : FieldMap) (files : List UploadedFile) :
    Option ValidationFailure :=
  match checkMissing formData with
  | some f => some f
  | none =>
    match checkBirthDate parseDate today formData with
    | some f => some f
    | none =>
      match checkSurgeryDate parseDate today formData with
      | some f => some f
      | none =>
        match checkAttachmentPresence formData files with
        | some f => some f
        | none => checkFileTypes files

/-- The typeface actually drawing the text: the embedded custom Roboto
bytes, or the pdf-lib standard Helvetica. -/
inductive Font where
  | custom
  | helvetica
  deriving Repr, DecidableEq

/-- The state of the local font resource at
`path.join(__dirname, 'fonts', 'Roboto-Regular.ttf')`:
the file is missing (`fs.existsSync` is false), reading or embedding it
throws, or it loads fine. -/
inductive FontResource where
  | missing
  | loadFailure
  | loaded
  deriving Repr, DecidableEq

/-- The `try { ... } catch (fontError) { font = Helvetica }` block of
`generatePdf`: a missing file takes the `else` branch, a throwing load is
caught, and both yield the standard Helvetica. -/
def chooseFont : FontResource → Font
  | .loaded => .custom
  | .missing => .helvetica
  | .loadFailure => .helvetica

/-- One `page.drawText` event of `generatePdf`: the drawn string, its
position, font size and typeface (color is a function of the size here and
is elided). -/
structure PdfText where
  text : String
  x : Int
  y : Int
  size : Nat
  font : Font
  deriving Repr, DecidableEq

/-- One entry of the content-section schema: a display title and the
ordered field keys grouped under it. -/
structure Section where
  title : String
  fields : List String
  deriving Repr, DecidableEq

/-- The `sections` constant local to `generatePdf`. -/
def pdfSections : List Section :=
  [⟨"Patient Information", ["patientName", "birthDate", "surgeryDate"]⟩,
   ⟨"Planning Information", ["surgicalGuideType", "numberOfImplants", "expeditedRequest"]⟩,
   ⟨"Implant System", ["implantSystem", "implantPositions", "implantDimensions", "tissueFlapType"]⟩,
   ⟨"Doctor Information", ["doctorName", "doctorLicense", "doctorPhone", "doctorAddress", "doctorCity", "doctorState", "doctorZip"]⟩]

/-- The `sections` constant local to `generateEmailHtml`, duplicated
verbatim in the source. -/
def emailSections : List Section :=
  [⟨"Patient Information", ["patientName", "birthDate", "surgeryDate"]⟩,
   ⟨"Planning Information", ["surgicalGuideType", "numberOfImplants", "expeditedRequest"]⟩,
   ⟨"Implant System", ["implantSystem", "implantPositions", "implantDimensions", "tissueFlapType"]⟩,
   ⟨"Doctor Information", ["doctorName", "doctorLicense", "doctorPhone", "doctorAddress", "doctorCity", "doctorState", "doctorZip"]⟩]

/-- The inner `section.fields.forEach` of `generatePdf`: draw
`formatFieldName(field): value` at x 60 size 12 and advance `yPosition` by
`fieldGap = 15` for each field present in the record, skipping absent
fields (the mutable `yPosition` walk is the recursion's accumulator). -/
def pdfDrawFields (font : Font) (m : FieldMap) :
    List String → Int → List PdfText × Int
  | [], y => ([], y)
  | field :: rest, y =>
    if fieldTruthy m field then
      let item : PdfText :=
        ⟨formatFieldName field ++ ": " ++ getField m field, 60, y, 12, font⟩
      let (items, yEnd) := pdfDrawFields font m rest (y - 15)
      (item :: items, yEnd)
    else
      pdfDrawFields font m rest y

/-- The outer `sections.forEach` of `generatePdf`: draw the section title
at x 50 size 14, advance by `sectionGap = 20`, draw the section's present
fields, then advance by `sectionGap` again. -/
def pdfDrawSections (font : Font) (m : FieldMap) :
    List Section → Int → List PdfText × Int
  | [], y => ([], y)
  | s :: rest, y =>
    let head : PdfText := ⟨s.title ++ ":", 50, y, 14, font⟩
    let (fieldItems, y1) := pdfDrawFields font m s.fields (y - 20)
    let (restItems, y2) := pdfDrawSections font m rest (y1 - 20)
    (head :: fieldItems ++ restItems, y2)

/-- `generatePdf` from `server.js` as the sequence of `drawText` events on
its single A4 page: the guard throwing on an empty form, the font
selection, the two header lines, the section content starting at
`yPosition = 710`, and the footer stamped with the wall-clock time `now`
(the decorative `drawLine` separator emits no text and is elided). -/
def generatePdf (fontRes : FontResource) (now : String) (formData : FieldMap) :
    Except String (List PdfText) :=
  if formData.isEmpty then
    .error "PDF generation failed: No form data provided"
  else
    let font := chooseFont fontRes
    let header : List PdfText :=
      [⟨"Guided Excellence - Case Submission", 50, 780, 20, font⟩,
       ⟨"Case Details", 50, 750, 16, font⟩]
    let body := (pdfDrawSections font formData pdfSections 710).fst
    let footer : PdfText := ⟨"Submitted on: " ++ now, 50, 50, 10, font⟩
    .ok (header ++ body ++ [footer])

/-- The `<p>` element emitted per present field by `renderSection` in
`generateEmailHtml` (template-literal indentation elided). -/
def emailFieldHtml (label : String) (value : String) : String :=
  "<p style=\"margin: 5px 0;\"><strong style=\"color: #333;\">" ++ label ++
    ":</strong> <span style=\"color: #555;\">" ++ value ++ "</span></p>"

/-- `section.fields.map(...)` inside `renderSection`: the present field's
paragraph, or the empty string for an absent field. -/
def emailRenderField (m : FieldMap) (field : String) : String :=
  if fieldTruthy m field then
    emailFieldHtml (formatFieldName field) (getField m field)
  else
    ""

/-- The opening of one section `<div>` with its `<h2>` heading. -/
def emailSectionOpen (title : String) : String :=
  "<div style=\"margin-bottom: 30px;\"><h2 style=\"color: #0c1152;\">" ++
    title ++ "</h2>"

/-- The closing tag of one section `<div>`. -/
def emailSectionClose : String := "</div>"

/-- `renderSection` from `generateEmailHtml`: heading, then the joined
per-field fragments. -/
def emailRenderSection (m : FieldMap) (s : Section) : String :=
  emailSectionOpen s.title ++ String.join (s.fields.map (emailRenderField m)) ++
    emailSectionClose

/-- The fixed markup before the sections: wrapper `<div>` and `<h1>`. -/
def emailHeaderHtml : String :=
  "<div style=\"font-family: Arial, sans-serif; max-width: 600px; margin: 0 auto;\">" ++
    "<h1 style=\"color: #0c1152; border-bottom: 2px solid #0c1152; padding-bottom: 10px;\">New Case Submission</h1>"

/-- The fixed closing note and wrapper close after the sections. -/
def emailFooterHtml : String :=
  "<p style=\"font-size: 12px; color: #666; margin-top: 30px;\">This case submission includes a PDF with all details attached.</p></div>"

/-- `generateEmailHtml` from `server.js`: header, the joined rendered
sections, closing note. -/
def generateEmailHtml (formData : FieldMap) : String :=
  emailHeaderHtml ++
    String.join (emailSections.map (emailRenderSection formData)) ++
    emailFooterHtml

/-- The ordered (section title, field key, field value) triples a renderer
driven by schema `secs` surfaces for record `m`: per section in order, the
present fields in order with their values. -/
def sectionTriples (secs : List Section) (m : FieldMap) :
    List (String × String × String) :=
  secs.flatMap (fun s =>
    (s.fields.filter (fun f => fieldTruthy m f)).map
      (fun f => (s.title, f, getField m f)))

/-- The spec's missing-field criterion, in its own words: the key is
absent, empty, or whitespace-only after trimming. -/
def specMissing (m : FieldMap) (k : String) : Bool :=
  match lookupField m k with
  | none => true
  | some v => jsTrim v = ""

/-- The spec's display-label rule, in its own words: insert a space before
each internal upper-case letter, then capitalize the first character. -/
def specLabel (s : String) : String :=
  match s.data with
  | [] => ""
  | c :: cs => String.mk (c.toUpper :: insertSpaceBeforeUpper cs)

/-! Helper lemmas about the validator. -/

theorem checkMissing_eq_none_iff (m : FieldMap) :
    checkMissing m = none ↔ missingOf m = [] := by
  simp only [checkMissing]
  rcases h : missingOf m with _ | ⟨a, l⟩ <;> simp [h]

theorem checkMissing_shape {m : FieldMap} {f : ValidationFailure}
    (h : checkMissing m = some f) :
    f = .missingFields ((missingOf m).map formatFieldName) := by
  simp only [checkMissing] at h
  split at h
  · exact (Option.some_inj.mp h).symm
  · exact absurd h (by simp)

theorem checkBirthDate_shape {p : String → Option Int} {t : Int}
    {m : FieldMap} {f : ValidationFailure}
    (h : checkBirthDate p t m = some f) : f = .invalidDate "birthDate" := by
  simp only [checkBirthDate] at h
  split at h
  · split at h
    · split at h
      · exact (Option.some_inj.mp h).symm
      · exact absurd h (by simp)
    · exact absurd h (by simp)
  · exact absurd h (by simp)

theorem checkSurgeryDate_shape {p : String → Option Int} {t : Int}
    {m : FieldMap} {f : ValidationFailure}
    (h : checkSurgeryDate p t m = some f) : f = .invalidDate "surgeryDate" := by
  simp only [checkSurgeryDate] at h
  split at h
  · split at h
    · split at h
      · exact (Option.some_inj.mp h).symm
      · exact absurd h (by simp)
    · exact absurd h (by simp)
  · exact absurd h (by simp)

theorem checkAttachmentPresence_shape {m : FieldMap}
    {files : List UploadedFile} {f : ValidationFailure}
    (h : checkAttachmentPresence m files = some f) : f = .missingAttachment := by
  simp only [checkAttachmentPresence] at h
  split at h
  · exact (Option.some_inj.mp h).symm
  · exact absurd h (by simp)

theorem checkFileTypes_shape {files : List UploadedFile} {f : ValidationFailure}
    (h : checkFileTypes files = some f) :
    f = .invalidFileType ((invalidFilesOf files).map (·.originalname)) := by
  simp only [checkFileTypes] at h
  split at h
  · exact (Option.some_inj.mp h).symm
  · exact absurd h (by simp)

theorem fieldTruthy_of_checkMissing_none {m : FieldMap} {f : String}
    (h : checkMissing m = none) (hf : f ∈ requiredFields) :
    fieldTruthy m f = true := by
  have hnil : missingOf m = [] := (checkMissing_eq_none_iff m).mp h
  by_contra hx
  have : f ∈ missingOf m := by
    simp only [missingOf, List.mem_filter]
    exact ⟨hf, by simpa using hx⟩
  rw [hnil] at this
  exact absurd this (List.not_mem_nil f)

/-- C1: for a field map whose `birthDate` value parses to calendar day `d`,
the handler rejects with `InvalidDate(birthDate)` exactly when `d` is today
or in the future (`birthDate >= today`), and the birth-date check passes
whenever `d` is strictly earlier than today; the presence check runs first,
so the equivalence is stated relative to it passing. -/
theorem validate_birthDate_today_or_future
    (p : String → Option Int) (t : Int) (m : FieldMap)
    (files : List UploadedFile) (s : String) (d : Int)
    (hs : lookupField m "birthDate" = some s) (hd : p s = some d) :
    validate p t m files = some (.invalidDate "birthDate") ↔
      (checkMissing m = none ∧ t ≤ d) := by
  cases hcm : checkMissing m with
  | some f =>
    have hf := checkMissing_shape hcm
    subst hf
    simp [validate, hcm]
  | none =>
    have htrue : fieldTruthy m "birthDate" = true :=
      fieldTruthy_of_checkMissing_none hcm (by decide)
    have hget : getField m "birthDate" = s := by simp [getField, hs]
    by_cases hle : t ≤ d
    · have hcb : checkBirthDate p t m = some (.invalidDate "birthDate") := by
        simp [checkBirthDate, htrue, hget, hd, hle]
      simp [validate, hcm, hcb, hle]
    · have hcb : checkBirthDate p t m = none := by
        simp [checkBirthDate, htrue, hget, hd, hle]
      simp only [validate, hcm, hcb]
      constructor
      · intro h
        exfalso
        cases hcs : checkSurgeryDate p t m with
        | some f =>
          rw [hcs] at h
          have := checkSurgeryDate_shape hcs
          subst this
          simp at h
        | none =>
          rw [hcs] at h
          cases hca : checkAttachmentPresence m files with
          | some f =>
            rw [hca] at h
            have := checkAttachmentPresence_shape hca
            subst this
            simp at h
          | none =>
            rw [hca] at h
            cases hcf : checkFileTypes files with
            | some f =>
              rw [hcf] at h
              have := checkFileTypes_shape hcf
              subst this
              simp at h
            | none =>
              rw [hcf] at h
              simp at h
      · rintro ⟨-, h⟩
        exact absurd h hle

/-- A parse table for the example dates used by the witnesses: day indices
for a past birth date, a future surgery date, and one past surgery date. -/
def exampleParse : String → Option Int := fun s =>
  if s = "1990-05-01" then some 7425
  else if s = "2031-01-01" then some 22281
  else if s = "2020-01-01" then some 18262
  else none

/-- The example current calendar day for the witnesses. -/
def exampleToday : Int := 20000

/-- A complete submission field map: every required field non-empty, with
the example birth and surgery dates. -/
def exampleComplete : FieldMap :=
  requiredFields.map (fun f =>
    if f = "birthDate" then (f, "1990-05-01")
    else if f = "surgeryDate" then (f, "2031-01-01")
    else (f, "v"))

/-- A single allowed uploaded file. -/
def examplePdfFile : UploadedFile := ⟨"scan.pdf", "application/pdf"⟩

theorem validate_birthDate_today_or_future_witness :
    lookupField exampleComplete "birthDate" = some "1990-05-01" ∧
      exampleParse "1990-05-01" = some 7425 ∧
      (validate exampleParse exampleToday exampleComplete [examplePdfFile] =
          some (.invalidDate "birthDate") ↔
        (checkMissing exampleComplete = none ∧ exampleToday ≤ 7425)) :=
  ⟨by decide, by decide,
    validate_birthDate_today_or_future exampleParse exampleToday exampleComplete
      [examplePdfFile] "1990-05-01" 7425 (by decide) (by decide)⟩

/-- C4: for a field map whose `surgeryDate` value parses to calendar day
`d`, the handler rejects with `InvalidDate(surgeryDate)` exactly when `d`
is today or earlier (`surgeryDate <= today`), and the surgery-date check
passes whenever `d` is strictly later than today; the presence and
birth-date checks run first, so the equivalence is stated relative to the
birth-date check passing. -/
theorem validate_surgeryDate_not_future
    (p : String → Option Int) (t : Int) (m : FieldMap)
    (files : List UploadedFile) (s : String) (d : Int)
    (hs : lookupField m "surgeryDate" = some s) (hd : p s = some d)
    (hb : checkBirthDate p t m = none) :
    validate p t m files = some (.invalidDate "surgeryDate") ↔
      (checkMissing m = none ∧ d ≤ t) := by
  cases hcm : checkMissing m with
  | some f =>
    have hf := checkMissing_shape hcm
    subst hf
    simp [validate, hcm]
  | none =>
    have htrue : fieldTruthy m "surgeryDate" = true :=
      fieldTruthy_of_checkMissing_none hcm (by decide)
    have hget : getField m "surgeryDate" = s := by simp [getField, hs]
    by_cases hle : d ≤ t
    · have hcs : checkSurgeryDate p t m = some (.invalidDate "surgeryDate") := by
        simp [checkSurgeryDate, htrue, hget, hd, hle]
      simp [validate, hcm, hb, hcs, hle]
    · have hcs : checkSurgeryDate p t m = none := by
        simp [checkSurgeryDate, htrue, hget, hd, hle]
      simp only [validate, hcm, hb, hcs]
      constructor
      · intro h
        exfalso
        cases hca : checkAttachmentPresence m files with
        | some f =>
          rw [hca] at h
          have := checkAttachmentPresence_shape hca
          subst this
          simp at h
        | none =>
          rw [hca] at h
          cases hcf : checkFileTypes files with
          | some f =>
            rw [hcf] at h
            have := checkFileTypes_shape hcf
            subst this
            simp at h
          | none =>
            rw [hcf] at h
            simp at h
      · rintro ⟨-, h⟩
        exact absurd h hle

theorem validate_surgeryDate_not_future_witness :
    lookupField exampleComplete "surgeryDate" = some "2031-01-01" ∧
      exampleParse "2031-01-01" = some 22281 ∧
      checkBirthDate exampleParse exampleToday exampleComplete = none ∧
      (validate exampleParse exampleToday exampleComplete [examplePdfFile] =
          some (.invalidDate "surgeryDate") ↔
        (checkMissing exampleComplete = none ∧ (22281 : Int) ≤ exampleToday)) :=
  ⟨by decide, by decide, by decide,
    validate_surgeryDate_not_future exampleParse exampleToday exampleComplete
      [examplePdfFile] "2031-01-01" 22281 (by decide) (by decide) (by decide)⟩

theorem lookup_sanitizeInput (m : FieldMap) (k : String) :
    lookupField (sanitizeInput m) k = (lookupField m k).map jsTrim := by
  induction m with
  | nil => rfl
  | cons hd tl ih =>
    obtain ⟨a, b⟩ := hd
    simp only [sanitizeInput, lookupField, List.map_cons, List.lookup_cons] at *
    by_cases hk : (k == a) = true
    · simp [hk]
    · simp [hk, ih]

theorem fieldTruthy_sanitizeInput (m : FieldMap) (k : String) :
    fieldTruthy (sanitizeInput m) k = !(specMissing m k) := by
  simp only [fieldTruthy, specMissing, lookup_sanitizeInput]
  cases lookupField m k with
  | none => rfl
  | some v =>
    simp only [Option.map_some]
    by_cases hv : jsTrim v = "" <;> simp [hv]

theorem missingOf_sanitizeInput (m : FieldMap) :
    missingOf (sanitizeInput m) = requiredFields.filter (specMissing m) := by
  unfold missingOf
  apply List.filter_congr
  intro f _
  rw [fieldTruthy_sanitizeInput, Bool.not_not]

theorem formatFieldName_eq_specLabel_on_required :
    ∀ f ∈ requiredFields, formatFieldName f = specLabel f := by decide

/-- C2: when at least one required field of the raw submission is absent,
empty, or whitespace-only after trimming, the handler (which trims first
via `sanitizeInput`) rejects with `MissingFields` carrying exactly the
missing required keys, in required-field order, each turned into a display
label by the spec's rule (space before each internal capital, first letter
capitalized). -/
theorem validate_missing_required_fields
    (raw : FieldMap) (p : String → Option Int) (t : Int)
    (files : List UploadedFile)
    (h : requiredFields.filter (specMissing raw) ≠ []) :
    validate p t (sanitizeInput raw) files =
      some (.missingFields
        ((requiredFields.filter (specMissing raw)).map specLabel)) := by
  have hmiss : missingOf (sanitizeInput raw) = requiredFields.filter (specMissing raw) :=
    missingOf_sanitizeInput raw
  have hlen : (missingOf (sanitizeInput raw)).length > 0 := by
    rw [hmiss]
    exact List.length_pos.mpr h
  have hcm : checkMissing (sanitizeInput raw) =
      some (.missingFields ((missingOf (sanitizeInput raw)).map formatFieldName)) := by
    simp [checkMissing, hlen]
  have hlabels : (missingOf (sanitizeInput raw)).map formatFieldName =
      (requiredFields.filter (specMissing raw)).map specLabel := by
    rw [hmiss]
    exact List.map_congr_left (fun f hf =>
      formatFieldName_eq_specLabel_on_required f (List.mem_of_mem_filter hf))
  simp [validate, hcm, hlabels]

/-- A raw map with a whitespace-only `doctorLicense`, a missing
`doctorPhone`, and every other required field filled. -/
def exampleRawMissing : FieldMap :=
  (requiredFields.filter (fun f => f ≠ "doctorPhone")).map (fun f =>
    if f = "doctorLicense" then (f, "   ") else (f, "v"))

theorem validate_missing_required_fields_witness :
    requiredFields.filter (specMissing exampleRawMissing) =
        ["doctorLicense", "doctorPhone"] ∧
      validate exampleParse exampleToday (sanitizeInput exampleRawMissing)
          [examplePdfFile] =
        some (.missingFields
          ((requiredFields.filter (specMissing exampleRawMissing)).map specLabel)) ∧
      (requiredFields.filter (specMissing exampleRawMissing)).map specLabel =
        ["Doctor License", "Doctor Phone"] :=
  ⟨by decide,
    validate_missing_required_fields exampleRawMissing exampleParse exampleToday
      [examplePdfFile] (by decide),
    by decide⟩

theorem checkAttachmentPresence_some_iff (m : FieldMap)
    (files : List UploadedFile) :
    checkAttachmentPresence m files = some .missingAttachment ↔
      (files = [] ∧ fieldTruthy m "fileLink" = false) := by
  simp only [checkAttachmentPresence]
  split
  · rename_i h
    simp only [Bool.and_eq_true, decide_eq_true_eq, Bool.not_eq_true'] at h
    simp [List.length_eq_zero.mp h.1, h.2]
  · rename_i h
    simp only [Bool.and_eq_true, decide_eq_true_eq, Bool.not_eq_true'] at h
    constructor
    · intro hx
      exact absurd hx (by simp)
    · rintro ⟨h1, h2⟩
      exact absurd ⟨by simp [h1], h2⟩ h

/-- C6: relative to the earlier checks passing, the handler rejects with
`MissingAttachment` exactly when no file was uploaded and the (trimmed)
`fileLink` field is absent or empty; one uploaded file, or a non-empty
`fileLink` value, passes the attachment-presence check. -/
theorem validate_missing_attachment
    (p : String → Option Int) (t : Int) (m : FieldMap)
    (files : List UploadedFile)
    (hmiss : checkMissing m = none)
    (hb : checkBirthDate p t m = none)
    (hsd : checkSurgeryDate p t m = none) :
    validate p t m files = some .missingAttachment ↔
      (files = [] ∧ fieldTruthy m "fileLink" = false) := by
  simp only [validate, hmiss, hb, hsd]
  cases hca : checkAttachmentPresence m files with
  | some f =>
    have hf := checkAttachmentPresence_shape hca
    subst hf
    simp only [reduceCtorEq]
    rw [true_iff]
    exact (checkAttachmentPresence_some_iff m files).mp hca
  | none =>
    constructor
    · intro h
      exfalso
      cases hcf : checkFileTypes files with
      | some f =>
        rw [hcf] at h
        have := checkFileTypes_shape hcf
        subst this
        simp at h
      | none =>
        rw [hcf] at h
        simp at h
    · intro hrhs
      have := (checkAttachmentPresence_some_iff m files).mpr hrhs
      rw [hca] at this
      exact absurd this (by simp)

theorem validate_missing_attachment_witness :
    checkMissing exampleComplete = none ∧
      checkBirthDate exampleParse exampleToday exampleComplete = none ∧
      checkSurgeryDate exampleParse exampleToday exampleComplete = none ∧
      (validate exampleParse exampleToday exampleComplete [] =
          some .missingAttachment ↔
        (([] : List UploadedFile) = [] ∧
          fieldTruthy exampleComplete "fileLink" = false)) :=
  ⟨by decide, by decide, by decide,
    validate_missing_attachment exampleParse exampleToday exampleComplete []
      (by decide) (by decide) (by decide)⟩

theorem invalidFilesOf_eq_nil_iff (files : List UploadedFile) :
    invalidFilesOf files = [] ↔ ∀ file ∈ files, file.mimetype ∈ allowedTypes := by
  simp [invalidFilesOf, List.filter_eq_nil_iff]

/-- C5: relative to the earlier checks passing, the handler rejects with
`InvalidFileType` exactly when some uploaded file's declared MIME type is
outside the fixed allow-list, and the failure carries the original names of
all offending files in upload order. -/
theorem validate_invalid_file_types
    (p : String → Option Int) (t : Int) (m : FieldMap)
    (files : List UploadedFile)
    (hmiss : checkMissing m = none)
    (hb : checkBirthDate p t m = none)
    (hsd : checkSurgeryDate p t m = none) :
    ((∃ ns, validate p t m files = some (.invalidFileType ns)) ↔
        ∃ file ∈ files, file.mimetype ∉ allowedTypes)
    ∧ ∀ ns, validate p t m files = some (.invalidFileType ns) →
        ns = (invalidFilesOf files).map (·.originalname) := by
  simp only [validate, hmiss, hb, hsd]
  cases hca : checkAttachmentPresence m files with
  | some f =>
    have hf := checkAttachmentPresence_shape hca
    subst hf
    have hnil : files = [] := ((checkAttachmentPresence_some_iff m files).mp hca).1
    subst hnil
    simp
  | none =>
    by_cases hinv : invalidFilesOf files = []
    · have hcf : checkFileTypes files = none := by
        simp [checkFileTypes, hinv]
      simp only [hcf]
      constructor
      · simp only [reduceCtorEq, exists_false, false_iff]
        rintro ⟨file, hmem, hnot⟩
        exact hnot ((invalidFilesOf_eq_nil_iff files).mp hinv file hmem)
      · intro ns hns
        exact absurd hns (by simp)
    · have hlen : (invalidFilesOf files).length > 0 := List.length_pos.mpr hinv
      have hcf : checkFileTypes files =
          some (.invalidFileType ((invalidFilesOf files).map (·.originalname))) := by
        simp [checkFileTypes, hlen]
      simp only [hcf]
      constructor
      · constructor
        · intro _
          by_contra hall
          push_neg at hall
          exact hinv ((invalidFilesOf_eq_nil_iff files).mpr hall)
        · intro _
          exact ⟨(invalidFilesOf files).map (·.originalname), rfl⟩
      · intro ns hns
        have := Option.some_inj.mp hns
        injection this.symm

theorem validate_invalid_file_types_witness :
    checkMissing exampleComplete = none ∧
      checkBirthDate exampleParse exampleToday exampleComplete = none ∧
      checkSurgeryDate exampleParse exampleToday exampleComplete = none ∧
      (((∃ ns, validate exampleParse exampleToday exampleComplete
            [examplePdfFile, ⟨"x.exe", "application/x-exe"⟩, ⟨"y.zip", "application/zip"⟩] =
            some (.invalidFileType ns)) ↔
          ∃ file ∈ [examplePdfFile, UploadedFile.mk "x.exe" "application/x-exe",
              UploadedFile.mk "y.zip" "application/zip"],
            file.mimetype ∉ allowedTypes)
        ∧ ∀ ns, validate exampleParse exampleToday exampleComplete
            [examplePdfFile, ⟨"x.exe", "application/x-exe"⟩, ⟨"y.zip", "application/zip"⟩] =
            some (.invalidFileType ns) →
          ns = (invalidFilesOf [examplePdfFile, ⟨"x.exe", "application/x-exe"⟩,
              ⟨"y.zip", "application/zip"⟩]).map (·.originalname)) :=
  ⟨by decide, by decide, by decide,
    validate_invalid_file_types exampleParse exampleToday exampleComplete
      [examplePdfFile, ⟨"x.exe", "application/x-exe"⟩, ⟨"y.zip", "application/zip"⟩]
      (by decide) (by decide) (by decide)⟩

/-- C9: a non-empty `birthDate` or `surgeryDate` value that does not parse
as a valid date never produces an `InvalidDate` rejection for that field:
every comparison against an invalid date is false, so the date check
silently passes. -/
theorem validate_unparsable_dates_pass
    (p : String → Option Int) (t : Int) (m : FieldMap)
    (files : List UploadedFile) (field s : String)
    (hfield : field = "birthDate" ∨ field = "surgeryDate")
    (hs : lookupField m field = some s) (hne : s ≠ "") (hp : p s = none) :
    validate p t m files ≠ some (.invalidDate field) := by
  intro h
  simp only [validate] at h
  cases hcm : checkMissing m with
  | some f =>
    rw [hcm] at h
    have := checkMissing_shape hcm
    subst this
    simp at h
  | none =>
    rw [hcm] at h
    cases hcb : checkBirthDate p t m with
    | some f =>
      rw [hcb] at h
      have := checkBirthDate_shape hcb
      subst this
      simp only [Option.some_inj] at h
      have hbd : field = "birthDate" := by
        injection h with h'
        exact h'.symm
      subst hbd
      have htruthy : fieldTruthy m "birthDate" = true := by
        simp [fieldTruthy, hs, hne]
      have hget : getField m "birthDate" = s := by simp [getField, hs]
      rw [checkBirthDate, htruthy] at hcb
      simp [hget, hp] at hcb
    | none =>
      rw [hcb] at h
      cases hcs : checkSurgeryDate p t m with
      | some f =>
        rw [hcs] at h
        have := checkSurgeryDate_shape hcs
        subst this
        simp only [Option.some_inj] at h
        have hsd : field = "surgeryDate" := by
          injection h with h'
          exact h'.symm
        subst hsd
        have htruthy : fieldTruthy m "surgeryDate" = true := by
          simp [fieldTruthy, hs, hne]
        have hget : getField m "surgeryDate" = s := by simp [getField, hs]
        rw [checkSurgeryDate, htruthy] at hcs
        simp [hget, hp] at hcs
      | none =>
        rw [hcs] at h
        cases hca : checkAttachmentPresence m files with
        | some f =>
          rw [hca] at h
          have := checkAttachmentPresence_shape hca
          subst this
          simp at h
        | none =>
          rw [hca] at h
          cases hcf : checkFileTypes files with
          | some f =>
            rw [hcf] at h
            have := checkFileTypes_shape hcf
            subst this
            simp at h
          | none =>
            rw [hcf] at h
            simp at h

theorem validate_unparsable_dates_pass_witness :
    lookupField [("birthDate", "not-a-date")] "birthDate" = some "not-a-date" ∧
      exampleParse "not-a-date" = none ∧
      validate exampleParse exampleToday [("birthDate", "not-a-date")] [] ≠
        some (.invalidDate "birthDate") :=
  ⟨by decide, by decide,
    validate_unparsable_dates_pass exampleParse exampleToday
      [("birthDate", "not-a-date")] [] "birthDate" "not-a-date"
      (Or.inl rfl) (by decide) (by decide) (by decide)⟩

/-! Helper lemmas about the renderers. -/

theorem foldl_append_init (l : List String) (a b : String) :
    List.foldl (fun r t => r ++ t) (a ++ b) l =
      a ++ List.foldl (fun r t => r ++ t) b l := by
  induction l generalizing b with
  | nil => rfl
  | cons x xs ih =>
    simp only [List.foldl_cons]
    rw [String.append_assoc]
    exact ih (b ++ x)

theorem join_cons (s : String) (l : List String) :
    String.join (s :: l) = s ++ String.join l := by
  have h := foldl_append_init l s ""
  simp only [String.join, List.foldl_cons]
  rw [show ("" ++ s) = (s ++ "") by simp]
  exact h

theorem join_map_ite (fields : List String) (pred : String → Bool)
    (g : String → String) :
    String.join (fields.map (fun f => if pred f then g f else "")) =
      String.join ((fields.filter pred).map g) := by
  induction fields with
  | nil => rfl
  | cons f rest ih =>
    rw [List.filter_cons]
    by_cases hf : pred f = true
    · simp only [List.map_cons, hf, if_true, join_cons, ih]
    · simp only [List.map_cons, hf, Bool.false_eq_true, if_false, join_cons, ih]
      simp

/-- One section's markup rebuilt from the (section, field, value) triples it
surfaces: the heading, one `<p>` per triple, the closing tag — with no
entry at all for an absent field. -/
def emailSectionAssembled (m : FieldMap) (s : Section) : String :=
  emailSectionOpen s.title ++
    String.join ((sectionTriples [s] m).map
      (fun tr => emailFieldHtml (formatFieldName tr.2.1) tr.2.2)) ++
    emailSectionClose

theorem sectionTriples_singleton (m : FieldMap) (s : Section) :
    sectionTriples [s] m =
      (s.fields.filter (fun f => fieldTruthy m f)).map
        (fun f => (s.title, f, getField m f)) := by
  simp [sectionTriples]

theorem emailRenderSection_eq_assembled (m : FieldMap) (s : Section) :
    emailRenderSection m s = emailSectionAssembled m s := by
  unfold emailRenderSection emailSectionAssembled
  rw [sectionTriples_singleton, List.map_map]
  have h : s.fields.map (emailRenderField m) =
      s.fields.map (fun f =>
        if fieldTruthy m f then emailFieldHtml (formatFieldName f) (getField m f)
        else "") := rfl
  rw [h, join_map_ite]
  rfl

theorem generateEmailHtml_eq_assembled (m : FieldMap) :
    generateEmailHtml m =
      emailHeaderHtml ++
        String.join (emailSections.map (emailSectionAssembled m)) ++
        emailFooterHtml := by
  unfold generateEmailHtml
  rw [List.map_congr_left (fun s _ => emailRenderSection_eq_assembled m s)]

theorem pdfDrawFields_texts (font : Font) (m : FieldMap) (fields : List String)
    (y : Int) :
    ((pdfDrawFields font m fields y).fst).map (·.text) =
      (fields.filter (fun f => fieldTruthy m f)).map
        (fun f => formatFieldName f ++ ": " ++ getField m f) := by
  induction fields generalizing y with
  | nil => rfl
  | cons f rest ih =>
    rw [List.filter_cons]
    by_cases hf : fieldTruthy m f = true
    · simp only [pdfDrawFields, hf, if_true]
      rcases hrec : pdfDrawFields font m rest (y - 15) with ⟨items, yEnd⟩
      have hih := ih (y - 15)
      rw [hrec] at hih
      simp [hih]
    · simp only [pdfDrawFields, hf, Bool.false_eq_true, if_false]
      exact ih y

theorem pdfDrawFields_mem (font : Font) (m : FieldMap) (fields : List String)
    (y : Int) :
    ∀ it ∈ (pdfDrawFields font m fields y).fst,
      it.font = font ∧ it.size = 12 ∧ it.text ≠ "" := by
  induction fields generalizing y with
  | nil =>
    intro it hit
    simp [pdfDrawFields] at hit
  | cons f rest ih =>
    intro it hit
    by_cases hf : fieldTruthy m f = true
    · simp only [pdfDrawFields, hf, if_true] at hit
      rcases hrec : pdfDrawFields font m rest (y - 15) with ⟨items, yEnd⟩
      rw [hrec] at hit
      simp only [List.mem_cons] at hit
      rcases hit with hit | hit
      · subst hit
        refine ⟨rfl, rfl, ?_⟩
        intro h
        have hlen := congrArg String.length h
        rw [String.length_append, String.length_append] at hlen
        have h2 : (": ").length = 2 := rfl
        have h0 : ("" : String).length = 0 := rfl
        omega
      · have hmem : it ∈ (pdfDrawFields font m rest (y - 15)).fst := by
          rw [hrec]
          exact hit
        exact ih (y - 15) it hmem
    · simp only [pdfDrawFields, hf, Bool.false_eq_true, if_false] at hit
      exact ih y it hit

theorem pdfDrawSections_mem (font : Font) (m : FieldMap) (secs : List Section)
    (y : Int) :
    ∀ it ∈ (pdfDrawSections font m secs y).fst,
      it.font = font ∧ it.text ≠ "" ∧ (it.size = 14 ∨ it.size = 12) := by
  induction secs generalizing y with
  | nil =>
    intro it hit
    simp [pdfDrawSections] at hit
  | cons s rest ih =>
    intro it hit
    simp only [pdfDrawSections] at hit
    rcases h1 : pdfDrawFields font m s.fields (y - 20) with ⟨fieldItems, y1⟩
    rw [h1] at hit
    rcases h2 : pdfDrawSections font m rest (y1 - 20) with ⟨restItems, y2⟩
    rw [h2] at hit
    simp only [List.mem_cons, List.mem_append] at hit
    rcases hit with (hit | hit) | hit
    · subst hit
      refine ⟨rfl, ?_, Or.inl rfl⟩
      intro h
      have hlen := congrArg String.length h
      rw [String.length_append] at hlen
      have h1c : (":" : String).length = 1 := rfl
      have h0 : ("" : String).length = 0 := rfl
      omega
    · have hmem : it ∈ (pdfDrawFields font m s.fields (y - 20)).fst := by
        rw [h1]
        exact hit
      have := pdfDrawFields_mem font m s.fields (y - 20) it hmem
      exact ⟨this.1, this.2.2, Or.inr this.2.1⟩
    · have hmem : it ∈ (pdfDrawSections font m rest (y1 - 20)).fst := by
        rw [h2]
        exact hit
      exact ih (y1 - 20) it hmem

theorem pdfDrawSections_fieldTexts (font : Font) (m : FieldMap)
    (secs : List Section) (y : Int) :
    ((pdfDrawSections font m secs y).fst.filter (fun it => it.size == 12)).map
        (·.text) =
      (sectionTriples secs m).map
        (fun tr => formatFieldName tr.2.1 ++ ": " ++ tr.2.2) := by
  induction secs generalizing y with
  | nil => rfl
  | cons s rest ih =>
    simp only [pdfDrawSections]
    rcases h1 : pdfDrawFields font m s.fields (y - 20) with ⟨fieldItems, y1⟩
    rcases h2 : pdfDrawSections font m rest (y1 - 20) with ⟨restItems, y2⟩
    have hall : fieldItems.filter (fun it => it.size == 12) = fieldItems :=
      List.filter_eq_self.mpr (fun it hit => by
        have hmem : it ∈ (pdfDrawFields font m s.fields (y - 20)).fst := by
          rw [h1]
          exact hit
        have := pdfDrawFields_mem font m s.fields (y - 20) it hmem
        simp [this.2.1])
    have htexts : fieldItems.map (·.text) =
        (s.fields.filter (fun f => fieldTruthy m f)).map
          (fun f => formatFieldName f ++ ": " ++ getField m f) := by
      have := pdfDrawFields_texts font m s.fields (y - 20)
      rw [h1] at this
      exact this
    have hrest : (restItems.filter (fun it => it.size == 12)).map (·.text) =
        (sectionTriples rest m).map
          (fun tr => formatFieldName tr.2.1 ++ ": " ++ tr.2.2) := by
      have := ih (y1 - 20)
      rw [h2] at this
      exact this
    simp only [List.filter_cons, List.filter_append, List.map_append,
      show ((14 : Nat) == 12) = false from rfl, Bool.false_eq_true, if_false,
      hall, hrest]
    rw [htexts]
    simp [sectionTriples, List.flatMap_cons, List.map_map, Function.comp]

/-- C3: both renderers surface the same ordered (section title, field key,
field value) triples: the two section schemas coincide, the PDF's size-12
drawn lines are exactly the pdf-schema triples rendered as
`Label: value` in order, and the email markup is exactly the header, the
per-section markup assembled from the email-schema triples in order, and
the footer. -/
theorem renderer_parity (m : FieldMap) (font : Font) (y : Int) :
    sectionTriples pdfSections m = sectionTriples emailSections m
    ∧ ((pdfDrawSections font m pdfSections y).fst.filter
          (fun it => it.size == 12)).map (·.text) =
        (sectionTriples pdfSections m).map
          (fun tr => formatFieldName tr.2.1 ++ ": " ++ tr.2.2)
    ∧ generateEmailHtml m =
        emailHeaderHtml ++
          String.join (emailSections.map (emailSectionAssembled m)) ++
          emailFooterHtml :=
  ⟨rfl, pdfDrawSections_fieldTexts font m pdfSections y,
    generateEmailHtml_eq_assembled m⟩

theorem triples_one_section_count (title : String) (fields : List String)
    (m : FieldMap) (f : String) :
    (((fields.filter (fun g => fieldTruthy m g)).map
        (fun g => (title, g, getField m g))).filter
          (fun tr => tr.2.1 == f)).length =
      if fieldTruthy m f = true then fields.count f else 0 := by
  induction fields with
  | nil => simp
  | cons g rest ih =>
    rw [List.filter_cons]
    by_cases hgf : (g == f) = true
    · have hge : g = f := by simpa using hgf
      subst hge
      by_cases hg : fieldTruthy m g = true
      · simp [hg, List.filter_cons, List.count_cons, ih]
      · simp [hg, List.count_cons, ih]
    · have hne : g ≠ f := by simpa using hgf
      by_cases hg : fieldTruthy m g = true
      · simp [hg, List.filter_cons, hgf, List.count_cons, hne, ih]
      · simp [hg, List.count_cons, hne, ih]

theorem sectionTriples_field_count (secs : List Section) (m : FieldMap)
    (f : String) :
    ((sectionTriples secs m).filter (fun tr => tr.2.1 == f)).length =
      if fieldTruthy m f = true then
        (secs.flatMap (fun s => s.fields)).count f
      else 0 := by
  induction secs with
  | nil => simp [sectionTriples]
  | cons s rest ih =>
    simp only [sectionTriples, List.flatMap_cons, List.filter_append,
      List.length_append, List.count_append] at *
    rw [ih, triples_one_section_count]
    by_cases hf : fieldTruthy m f = true <;> simp [hf]

/-- C7: for every field key of the shared section schema, each renderer
surfaces exactly one triple for that key when its value is present and none
when it is absent; moreover the PDF body never draws a blank line, and the
email markup is exactly what the present fields assemble (an absent field
contributes nothing, not a blank placeholder). -/
theorem renderer_present_absent_fields (m : FieldMap) (f : String)
    (font : Font) (y : Int)
    (hf : f ∈ pdfSections.flatMap (fun s => s.fields)) :
    (fieldTruthy m f = true →
        ((sectionTriples pdfSections m).filter (fun tr => tr.2.1 == f)).length = 1
        ∧ ((sectionTriples emailSections m).filter (fun tr => tr.2.1 == f)).length = 1)
    ∧ (fieldTruthy m f = false →
        ((sectionTriples pdfSections m).filter (fun tr => tr.2.1 == f)).length = 0
        ∧ ((sectionTriples emailSections m).filter (fun tr => tr.2.1 == f)).length = 0)
    ∧ (∀ it ∈ (pdfDrawSections font m pdfSections y).fst, it.text ≠ "")
    ∧ generateEmailHtml m =
        emailHeaderHtml ++
          String.join (emailSections.map (emailSectionAssembled m)) ++
          emailFooterHtml := by
  have hnodup : (pdfSections.flatMap (fun s => s.fields)).Nodup := by decide
  have hcount : (pdfSections.flatMap (fun s => s.fields)).count f = 1 :=
    List.count_eq_one_of_mem hnodup hf
  have hpdf := sectionTriples_field_count pdfSections m f
  have hemail := sectionTriples_field_count emailSections m f
  have hsame : emailSections = pdfSections := rfl
  refine ⟨?_, ?_, fun it hit => (pdfDrawSections_mem font m pdfSections y it hit).2.1,
    generateEmailHtml_eq_assembled m⟩
  · intro ht
    rw [hpdf, hemail, hsame]
    simp [ht, hcount]
  · intro hfalse
    rw [hpdf, hemail, hsame]
    simp [hfalse]

theorem renderer_present_absent_fields_witness :
    "birthDate" ∈ pdfSections.flatMap (fun s => s.fields) ∧
      ((fieldTruthy exampleComplete "birthDate" = true →
          ((sectionTriples pdfSections exampleComplete).filter
              (fun tr => tr.2.1 == "birthDate")).length = 1
          ∧ ((sectionTriples emailSections exampleComplete).filter
              (fun tr => tr.2.1 == "birthDate")).length = 1)
        ∧ (fieldTruthy exampleComplete "birthDate" = false →
          ((sectionTriples pdfSections exampleComplete).filter
              (fun tr => tr.2.1 == "birthDate")).length = 0
          ∧ ((sectionTriples emailSections exampleComplete).filter
              (fun tr => tr.2.1 == "birthDate")).length = 0)
        ∧ (∀ it ∈ (pdfDrawSections Font.helvetica exampleComplete pdfSections 710).fst,
            it.text ≠ "")
        ∧ generateEmailHtml exampleComplete =
            emailHeaderHtml ++
              String.join (emailSections.map (emailSectionAssembled exampleComplete)) ++
              emailFooterHtml) :=
  ⟨by decide,
    renderer_present_absent_fields exampleComplete "birthDate" Font.helvetica 710
      (by decide)⟩

/-- C8: for a non-empty record, a missing font file and a throwing font
load both fall back to the standard Helvetica typeface, and `generatePdf`
still produces the document (every drawn item in the fallback typeface);
the font-resource failure path never makes the render fail. -/
theorem generatePdf_font_fallback (m : FieldMap) (now : String)
    (res : FontResource) (hm : m ≠ [])
    (hres : res = .missing ∨ res = .loadFailure) :
    ∃ items, generatePdf res now m = .ok items ∧
      ∀ it ∈ items, it.font = Font.helvetica := by
  have hfont : chooseFont res = .helvetica := by
    rcases hres with h | h <;> subst h <;> rfl
  have hne : m.isEmpty = false := by
    cases m with
    | nil => exact absurd rfl hm
    | cons a l => rfl
  refine ⟨([⟨"Guided Excellence - Case Submission", 50, 780, 20, chooseFont res⟩,
      ⟨"Case Details", 50, 750, 16, chooseFont res⟩] : List PdfText) ++
        (pdfDrawSections (chooseFont res) m pdfSections 710).fst ++
        [⟨"Submitted on: " ++ now, 50, 50, 10, chooseFont res⟩], ?_, ?_⟩
  · simp [generatePdf, hne]
  intro it hit
  simp only [List.mem_append, List.mem_cons] at hit
  rcases hit with (hit | hit) | hit
  · rcases hit with hit | hit | hx
    · subst hit
      exact hfont
    · subst hit
      exact hfont
    · exact absurd hx (List.not_mem_nil it)
  · have := pdfDrawSections_mem (chooseFont res) m pdfSections 710 it hit
    rw [hfont] at this
    exact this.1
  · rcases hit with hit | hx
    · subst hit
      exact hfont
    · exact absurd hx (List.not_mem_nil it)

theorem generatePdf_font_fallback_witness :
    exampleComplete ≠ [] ∧
      (∃ items, generatePdf .missing "2025-01-01" exampleComplete = .ok items ∧
        ∀ it ∈ items, it.font = Font.helvetica) :=
  ⟨by decide,
    generatePdf_font_fallback exampleComplete "2025-01-01" .missing
      (by decide) (Or.inl rfl)⟩

theorem sectionTriples_key_mem (secs : List Section) (m : FieldMap) :
    ∀ tr ∈ sectionTriples secs m,
      tr.2.1 ∈ secs.flatMap (fun s => s.fields) := by
  intro tr htr
  simp only [sectionTriples, List.mem_flatMap, List.mem_map,
    List.mem_filter] at htr ⊢
  obtain ⟨s, hs, f, ⟨hf, _⟩, rfl⟩ := htr
  exact ⟨s, hs, hf⟩

/-- C10: `submitterName` is required (its absence makes validation fail
with `MissingFields`, the labels containing `Submitter Name`), yet it
appears in no section of either renderer's schema, so neither renderer
ever surfaces a triple for it. -/
theorem submitterName_required_never_rendered
    (p : String → Option Int) (t : Int) (m : FieldMap)
    (files : List UploadedFile)
    (h : fieldTruthy m "submitterName" = false) :
    "submitterName" ∈ requiredFields
    ∧ (∃ labels, validate p t m files = some (.missingFields labels) ∧
        "Submitter Name" ∈ labels)
    ∧ (∀ s ∈ pdfSections, "submitterName" ∉ s.fields)
    ∧ (∀ s ∈ emailSections, "submitterName" ∉ s.fields)
    ∧ (∀ r : FieldMap,
        (∀ tr ∈ sectionTriples pdfSections r, tr.2.1 ≠ "submitterName")
        ∧ (∀ tr ∈ sectionTriples emailSections r, tr.2.1 ≠ "submitterName")) := by
  have hmem : "submitterName" ∈ missingOf m :=
    List.mem_filter.mpr ⟨by decide, by simp [h]⟩
  have hne : missingOf m ≠ [] := by
    intro hnil
    rw [hnil] at hmem
    exact absurd hmem (List.not_mem_nil _)
  have hlen : (missingOf m).length > 0 := List.length_pos.mpr hne
  have hcm : checkMissing m =
      some (.missingFields ((missingOf m).map formatFieldName)) := by
    simp [checkMissing, hlen]
  refine ⟨by decide,
    ⟨(missingOf m).map formatFieldName, by simp [validate, hcm],
      List.mem_map.mpr ⟨"submitterName", hmem, by decide⟩⟩,
    by decide, by decide, ?_⟩
  intro r
  have hnot : "submitterName" ∉ pdfSections.flatMap (fun s => s.fields) := by
    decide
  constructor
  · intro tr htr heq
    exact hnot (heq ▸ sectionTriples_key_mem pdfSections r tr htr)
  · intro tr htr heq
    exact hnot (heq ▸ sectionTriples_key_mem emailSections r tr htr)

theorem submitterName_required_never_rendered_witness :
    fieldTruthy ([] : FieldMap) "submitterName" = false ∧
      ("submitterName" ∈ requiredFields
        ∧ (∃ labels, validate exampleParse exampleToday ([] : FieldMap) [] =
            some (.missingFields labels) ∧ "Submitter Name" ∈ labels)
        ∧ (∀ s ∈ pdfSections, "submitterName" ∉ s.fields)
        ∧ (∀ s ∈ emailSections, "submitterName" ∉ s.fields)
        ∧ (∀ r : FieldMap,
            (∀ tr ∈ sectionTriples pdfSections r, tr.2.1 ≠ "submitterName")
            ∧ (∀ tr ∈ sectionTriples emailSections r, tr.2.1 ≠ "submitterName"))) :=
  ⟨by decide,
    submitterName_required_never_rendered exampleParse exampleToday [] []
      (by decide)⟩

end GuidedBackend
